import Mathlib

/-!
Verification of the natural-language specification of the
`opendatahub-io/data-science-pipelines` CI scripts against their code.

Part 1 models `.github/scripts/check_integration_test.py`:
  * `check_integration_test_checkbox`   (lines 13-20)
  * `has_unchecked_integration_test_checkbox` (lines 23-30)
  * `remove_integration_test_checkbox`  (lines 33-41)
  * `post_instruction_comment`          (lines 44-99)
  * the decision logic of `main`        (lines 134-215)

Part 2 models `.github/actions/deploy/deploy.py`:
  * `DSPDeployer.str_to_bool`                      (lines 38-44)
  * `DSPDeployer._should_use_operator_deployment`  (lines 1029-1047)
  * the strategy branch of `DSPDeployer.deploy`    (lines 965-1027)
  * the `check=False` namespace-creation calls and the readiness-wait
    timeout handlers.

Strings are embedded as `List Char`.  The Python regexes in the PR-gate
script use `re.IGNORECASE` and never enable `re.DOTALL`, so `.` does not
match a newline and every regex match lies inside one segment of the body
delimited by the character LF; the embedding therefore lowercases
characters with `Char.toLower` and confines keyword scans to a single
LF-delimited segment, exactly mirroring the regex semantics.
-/

/-- Lowercase a character list (model of `re.IGNORECASE` / `str.lower()`,
which on the ASCII pattern alphabet used here agree with `Char.toLower`). -/
def lcase (s : List Char) : List Char := s.map Char.toLower

/-- Drop everything up to and including the earliest occurrence of `pat`
in the subject; `none` when `pat` does not occur.  This is the earliest-match
step a regex engine performs for one `.*literal` fragment. -/
def dropAfterL (pat : List Char) : List Char → Option (List Char)
  | [] => if pat.isEmpty then some [] else none
  | c :: cs =>
    if pat.isPrefixOf (c :: cs) then some ((c :: cs).drop pat.length)
    else dropAfterL pat cs

/-- Sequentially search for the given literals, each strictly after the end
of the previous one: the matcher for a chain of `.*k` fragments. -/
def kwSearch : List (List Char) → List Char → Bool
  | [], _ => true
  | k :: ks, s =>
    match dropAfterL k s with
    | some r => kwSearch ks r
    | none => false

/-- Search every start position of a (newline-free) line for the leading
literal `box` followed by the keywords in order: the matcher for
`re.search` of `box` followed by a chain of `.*k` fragments inside one
line. -/
def lineSearch (box : List Char) (kws : List (List Char)) : List Char → Bool
  | [] => false
  | c :: cs =>
    (box.isPrefixOf (c :: cs) && kwSearch kws ((c :: cs).drop box.length))
      || lineSearch box kws cs

/-- Split a character list on LF, Python `str.split` style:
`splitNl [] = [[]]` and separators produce empty segments. -/
def splitNl : List Char → List (List Char)
  | [] => [[]]
  | c :: cs =>
    if c = '\n' then [] :: splitNl cs
    else
      match splitNl cs with
      | [] => [[c]]
      | l :: ls => (c :: l) :: ls

/-- The checked-checkbox leading literal `- \[x\]` of the patterns. -/
def boxX : List Char := "- [x]".toList

/-- The unchecked-checkbox leading literal `- \[ \]`. -/
def boxU : List Char := "- [ ]".toList

/-- The keyword literals `integration`, `tests`, `openshift`, `cluster`,
`odh`, `nightly` common to all three patterns. -/
def kwList : List (List Char) :=
  ["integration".toList, "tests".toList, "openshift".toList,
   "cluster".toList, "odh".toList, "nightly".toList]

/-- Keywords occurring in order, each strictly after the end of the
previous one, with arbitrary interstitial text: the declarative semantics
of a chain of `.*k` regex fragments. -/
def InOrder : List (List Char) → List Char → Prop
  | [], _ => True
  | k :: ks, s => ∃ u v, s = (u ++ k) ++ v ∧ InOrder ks v

/-- Spec-side reading (claim C2) of "a line matching `- [x]` followed,
with arbitrary interstitial text on that line, by `integration`, `tests`,
`openshift`, `cluster`, `odh`, `nightly` in that order,
case-insensitively". -/
def SpecCheckedLine (l : List Char) : Prop :=
  ∃ g rest, lcase l = (g ++ boxX) ++ rest ∧ InOrder kwList rest

/-- Spec-side reading of "PR body containing such a line". -/
def ContainsCheckedLine (body : List Char) : Prop :=
  ∃ l ∈ splitNl body, SpecCheckedLine l

/-- `check_integration_test_checkbox(pr_body)` (script lines 13-20):
empty body gives `False`, otherwise `re.search` of
`- \[x\].*integration.*tests.*openshift.*cluster.*odh.*nightly`
with `re.IGNORECASE`; since `.` never matches LF the search is the
per-line scan. -/
def check_integration_test_checkbox (prBody : List Char) : Bool :=
  if prBody.isEmpty then false
  else (splitNl prBody).any (fun l => lineSearch boxX kwList (lcase l))

/-- `has_unchecked_integration_test_checkbox(pr_body)` (lines 23-30):
same search with the unchecked literal `- \[ \]`. -/
def has_unchecked_integration_test_checkbox (prBody : List Char) : Bool :=
  if prBody.isEmpty then false
  else (splitNl prBody).any (fun l => lineSearch boxU kwList (lcase l))

/-- At the current position inside one line, does the removal pattern
`- \[[x ]\].*integration.*tests.*openshift.*cluster.*odh.*nightly.*\n?`
match?  The leading literal is 5 characters (`boxX.length`), and because
`.` excludes LF all keywords must fall inside the current line. -/
def removeMatchHead (s : List Char) : Bool :=
  (boxX.isPrefixOf (lcase s) || boxU.isPrefixOf (lcase s))
    && kwSearch kwList ((lcase s).drop boxX.length)

/-- Scan one (LF-free) line left to right for the first position where the
removal pattern matches.  `some r` returns the residue before the match
start (everything from the match start to the end of the line is part of
the match, since its trailing `.*` is greedy); `none` means the line has no
match. -/
def lineRemoveScan : List Char → Option (List Char)
  | [] => none
  | c :: cs =>
    if removeMatchHead (c :: cs) then some []
    else
      match lineRemoveScan cs with
      | some r => some (c :: r)
      | none => none

/-- Removal result for the final line of the body (no LF to consume):
the residue when the pattern matched, the whole line otherwise. -/
def lineOut (l : List Char) : List Char :=
  match lineRemoveScan l with
  | some r => r
  | none => l

/-- `re.sub(pattern, '', pr_body)`: since no pattern element matches LF,
`re.sub` processes the LF-delimited segments independently; a match always
runs from its start position to the end of the segment and greedily
consumes the following LF through the trailing `\n?`, after which scanning
resumes at the start of the next segment.  A segment with a match therefore
contributes its pre-match residue without a separating LF, a segment
without a match is kept verbatim together with its LF. -/
def pyRemoveLines : List (List Char) → List Char
  | [] => []
  | [l] => lineOut l
  | l :: l2 :: ls =>
    match lineRemoveScan l with
    | some r => r ++ pyRemoveLines (l2 :: ls)
    | none => (l ++ ['\n']) ++ pyRemoveLines (l2 :: ls)

/-- Python whitespace for `str.strip()` (ASCII subset). -/
def isPyWs (c : Char) : Bool :=
  c == ' ' || c == '\t' || c == '\n' || c == '\r' || c == '\x0B' || c == '\x0C'

/-- `str.strip()`: remove leading and trailing whitespace. -/
def pyStrip (s : List Char) : List Char :=
  ((s.dropWhile isPyWs).reverse.dropWhile isPyWs).reverse

/-- `remove_integration_test_checkbox(pr_body)` (lines 33-41): empty body is
returned unchanged; otherwise `re.sub` of the removal pattern with `''`
followed by `.strip()`. -/
def remove_integration_test_checkbox (prBody : List Char) : List Char :=
  if prBody.isEmpty then prBody else pyStrip (pyRemoveLines (splitNl prBody))

/-- A GitHub issue comment as the script sees it: the author's user type
(`comment.user.type`) and the comment body. -/
structure IssueComment where
  user_type : String
  body : List Char
deriving DecidableEq

/-- The pull-request state the script reads and writes: the PR description
(`pull_request.body`) and its issue comments. -/
structure PRState where
  body : List Char
  comments : List IssueComment
deriving DecidableEq

/-- The `instruction_comment` literal of `post_instruction_comment`
(script lines 46-84). -/
def instruction_comment_text : String :=
  "## 🚦 Integration Test Verification Required\n\nThis pull request is merging **main** → **stable** and requires integration test verification.\n\n### ✅ Required Action:\nPlease add the following checkbox to your PR description and check it **only after** running the integration tests:\n\n```markdown\n- [ ] Ran integration tests in an OpenShift cluster with latest ODH nightly\n```\n\n### 📝 Steps:\n1. Run integration tests in OpenShift cluster with latest ODH nightly\n    a. Fetch nightly ODH build information from **#odh-nightlies-notifications** slack channel\n    b. Follow the instructions on [this](https://spaces.redhat.com/spaces/RHODS/pages/512757017/02+-+Jira+testing+and+Verification) page to create a cluster and deploy latest ODH\n    c. Once the deployment is DONE and your cluster is available:\n        1. Login to openshift console\n        2. Go to Operator > Installed Operators > Open Data Hub Operator > Data Science Cluster > default-dsc\n        3. Open the yaml spec\n        4. Update the `aipipelines` with:\n            ```\n            aipipelines:\n                devFlags:\n                    manifests:\n                      - uri: https://github.com/opendatahub-io/data-science-pipelines-operator/tarball/main\n                        contextDir: config\n                        sourcePath: base\n                managementState: Managed\n            ```\n        5. Save and wait for DSPO to update\n        6. Deploy DSPA\n        7. Run [Iris Pipeline](https://github.com/red-hat-data-services/ods-ci/blob/master/ods_ci/tests/Resources/Files/pipeline-samples/v2/cache-disabled/iris_pipeline_compiled.yaml) [Flip Coin](https://github.com/red-hat-data-services/ods-ci/blob/master/ods_ci/tests/Resources/Files/pipeline-samples/v2/cache-disabled/flip_coin_compiled.yaml) pipelines\n        8. Make sure the pipeline runs Succeeds\n2. Edit this PR description to add the checkbox above\n3. Check the checkbox to confirm tests were completed\n4. This workflow check will automatically pass once the checkbox is detected\n\n---\n*This requirement ensures production stability by verifying integration tests against the latest ODH nightly build.*"

/-- The `removal_comment` literal posted by `main` after stripping the
checkbox on a synchronize event (script lines 154-170). -/
def removal_comment_text : String :=
  "## 🔄 Integration Test Checkbox Removed\n\nNew commits have been pushed to this PR. The integration test checkbox has been automatically removed to ensure tests are re-run with the latest changes.\n\n**⚠️ This workflow check will now FAIL until you complete the steps below:**\n\n**Next Steps to Pass This Check:**\n1. Re-run integration tests in OpenShift cluster with latest ODH nightly\n2. Fetch nightly build information from **#odh-nightlies-notifications** Slack channel\n3. Add the integration test checkbox back to the PR description\n4. Check the checkbox only after confirming tests pass with the new commits\n\n```markdown\n- [ ] Ran integration tests in an OpenShift cluster with latest ODH nightly\n```\n\nOnce you add and check the checkbox above, this workflow will automatically pass."

/-- Plain (case-sensitive) substring test, the model of the Python `in`
operator on strings. -/
def containsSub (pat : List Char) : List Char → Bool
  | [] => pat.isEmpty
  | c :: cs => pat.isPrefixOf (c :: cs) || containsSub pat cs

/-- The existing-comment test of `post_instruction_comment` (lines 88-92):
`"Integration Test Verification Required" in comment.body and
comment.user.type == "Bot"`. -/
def is_instruction_comment (c : IssueComment) : Bool :=
  containsSub "Integration Test Verification Required".toList c.body
    && (c.user_type == "Bot")

/-- `post_instruction_comment(pull_request)` (lines 44-99): when a bot
comment containing the marker already exists, do nothing; otherwise create
the instruction comment (authored by the token's user, whose type is the
parameter `scriptUserType`). -/
def post_instruction_comment (scriptUserType : String)
    (comments : List IssueComment) : List IssueComment :=
  if comments.any is_instruction_comment then comments
  else comments ++ [⟨scriptUserType, instruction_comment_text.toList⟩]

/-- Process exit status of the script. -/
inductive ExitStatus where
  | exitZero
  | exitOne
deriving DecidableEq

/-- The decision logic of `main` (lines 134-215), after the PR has been
fetched: on a synchronize event with a (checked or unchecked) checkbox
present, the body is edited to the stripped version and the removal comment
is posted, and the final verdict re-reads the updated body; otherwise the
original body is checked, and when the checkbox is missing the instruction
comment is posted and the script exits 1. -/
def main_check (scriptUserType : String) (eventAction : String)
    (st : PRState) : ExitStatus × PRState :=
  if eventAction == "synchronize"
      && (check_integration_test_checkbox st.body
          || has_unchecked_integration_test_checkbox st.body) then
    let newBody := remove_integration_test_checkbox st.body
    let st1 : PRState :=
      ⟨newBody, st.comments ++ [⟨scriptUserType, removal_comment_text.toList⟩]⟩
    if check_integration_test_checkbox newBody then (.exitZero, st1)
    else (.exitOne, st1)
  else
    if check_integration_test_checkbox st.body then (.exitZero, st)
    else (.exitOne, ⟨st.body, post_instruction_comment scriptUserType st.comments⟩)

/-!
Part 2: `.github/actions/deploy/deploy.py`.
-/

/-- A Python value that is either a `str` or a `bool`, the inputs
`DSPDeployer.str_to_bool` distinguishes (lines 38-44). -/
inductive PyStrOrBool where
  | ofStr (s : String)
  | ofBool (b : Bool)

/-- `DSPDeployer.str_to_bool` (lines 38-44): booleans are returned
unchanged; strings are lowercased and compared with `'true'`. -/
def str_to_bool : PyStrOrBool → Bool
  | .ofBool b => b
  | .ofStr s => lcase s.toList == "true".toList

/-- The two boolean flags `_should_use_operator_deployment` reads
(after `_convert_args_to_booleans`). -/
structure DeployArgs where
  multi_user : Bool
  proxy : Bool
deriving DecidableEq

/-- `DSPDeployer._should_use_operator_deployment` (lines 1029-1047):
multi-user forces direct deployment, then proxy forces direct deployment,
otherwise the operator (DSPO) path is used. -/
def should_use_operator_deployment (a : DeployArgs) : Bool :=
  if a.multi_user then false
  else if a.proxy then false
  else true

/-- The two mutually exclusive deployment strategies of
`DSPDeployer.deploy` (lines 965-1027). -/
inductive DeployStrategy where
  | viaOperator
  | directManifests
deriving DecidableEq

/-- The strategy branch of `DSPDeployer.deploy` (lines 971-1013):
`if use_operator_deployment:` leads to `deploy_dsp_via_operator()`, the
`else` branch to `deploy_dsp_direct()`. -/
def deploy_strategy (a : DeployArgs) : DeployStrategy :=
  if should_use_operator_deployment a then .viaOperator else .directManifests

/-- One `run_command` invocation: argument vector and its `check` flag. -/
structure KubeCmd where
  args : List String
  chck : Bool
deriving DecidableEq

/-- `DSPDeployer.run_command` result logic (lines 95-161): raise
`CalledProcessError` exactly when `check` holds and the return code is
non-zero; otherwise hand the completed process back. -/
def runCmd (rc : Int) (chck : Bool) : Except String Int :=
  if chck && rc != 0 then .error "CalledProcessError" else .ok rc

/-- Run a command sequence, each result code supplied by the oracle at the
running index; stops at the first raised error. -/
def runSeq (oracle : Nat → Int) : Nat → List KubeCmd → Except String Nat
  | i, [] => .ok i
  | i, c :: rest =>
    match runCmd (oracle i) c.chck with
    | .error e => .error e
    | .ok _ => runSeq oracle (i + 1) rest

/-- `setup_environment` namespace creation (lines 88-93):
`kubectl create namespace <deployment namespace>` with `check=False`. -/
def create_deployment_namespace_cmd (ns : String) : KubeCmd :=
  ⟨["kubectl", "create", "namespace", ns], false⟩

/-- `deploy_operator` namespace creation (lines 215-220):
`kubectl create namespace <operator namespace>` with `check=False`. -/
def create_operator_namespace_cmd (ns : String) : KubeCmd :=
  ⟨["kubectl", "create", "namespace", ns], false⟩

/-- `deploy_pypi_server` namespace creation (lines 395-397):
`kubectl create namespace test-pypiserver` with `check=False`. -/
def create_pypi_namespace_cmd : KubeCmd :=
  ⟨["kubectl", "create", "namespace", "test-pypiserver"], false⟩

/-- `deploy_cert_manager` namespace creation (lines 516-521):
`kubectl create namespace cert-manager` with `check=False`. -/
def create_cert_manager_namespace_cmd : KubeCmd :=
  ⟨["kubectl", "create", "namespace", "cert-manager"], false⟩

/-- The readiness waits with fixed timeouts that inspect their return code
in the deployment script: the operator availability wait (lines 296-376,
timeout 300s), the DSPA-deployment creation wait (lines 757-776, timeout
2m), the DSPA availability wait (lines 778-796, timeout 10m) and the
SeaweedFS init-job completion wait (lines 489-506, timeout 300s). -/
inductive ReadinessWait where
  | operatorReady
  | dspaCreated
  | dspaAvailable
  | seaweedfsInit
deriving DecidableEq

/-- The diagnostic command families run by
`_investigate_deployment_failure` (lines 798-900): pods listing, per-pod
describe and logs, and namespace events. -/
def investigate_deployment_failure_diags : List String :=
  ["kubectl get pods", "kubectl describe pod", "kubectl logs",
   "kubectl get events"]

/-- The diagnostics of `deploy_operator` on wait timeout (lines 302-370):
deployments, pods, per-pod describe, events and logs, then all recent
events. -/
def operator_timeout_diags : List String :=
  ["kubectl get deployments", "kubectl get pods", "kubectl describe pod",
   "kubectl get events", "kubectl logs", "kubectl get events"]

/-- What each readiness wait does when its `kubectl wait` (run with
`check=False`) returns non-zero: the diagnostic commands it runs, and
whether it then raises `RuntimeError` (`true`) or continues (`false`).
Translated from lines 302-376, 764-776, 786-796 and 497-506. -/
def on_wait_timeout : ReadinessWait → List String × Bool
  | .operatorReady => (operator_timeout_diags, true)
  | .dspaCreated =>
      (investigate_deployment_failure_diags
        ++ investigate_deployment_failure_diags, true)
  | .dspaAvailable => (investigate_deployment_failure_diags, true)
  | .seaweedfsInit => (["kubectl logs"], false)

/-!
Theorems.  First, a library of facts about the matcher: the executable
earliest-occurrence search is sound and complete for the declarative
in-order-occurrence semantics `InOrder`.
-/

theorem prefixOf_iff (p s : List Char) :
    p.isPrefixOf s = true ↔ ∃ t, p ++ t = s := by
  rw [ List.isPrefixOf_iff_prefix]
  exact Iff.rfl

theorem prefixOf_append (p v w : List Char) (h : p.isPrefixOf v = true) :
    p.isPrefixOf (v ++ w) = true := by
  rcases (prefixOf_iff p v).1 h with ⟨t, ht⟩
  exact (prefixOf_iff p (v ++ w)).2 ⟨t ++ w, by rw [← List.append_assoc, ht]⟩

theorem suffix_of_suffix_len_le {l₁ l₂ l₃ : List Char} (h1 : l₁ <:+ l₃)
    (h2 : l₂ <:+ l₃) (h : l₁.length ≤ l₂.length) : l₁ <:+ l₂ := by
  rcases h1 with ⟨a, ha⟩
  rcases h2 with ⟨b, hb⟩
  have hl1 : l₁ = l₃.drop a.length := by rw [← ha, List.drop_left]
  have hl2 : l₂ = l₃.drop b.length := by rw [← hb, List.drop_left]
  have hlen1 : a.length + l₁.length = l₃.length := by
    rw [← ha, List.length_append]
  have hlen2 : b.length + l₂.length = l₃.length := by
    rw [← hb, List.length_append]
  refine ⟨l₂.take (a.length - b.length), ?_⟩
  have hdd : l₂.drop (a.length - b.length) = l₁ := by
    rw [hl2, List.drop_drop, hl1]
    congr 1
    omega
  calc l₂.take (a.length - b.length) ++ l₁
      = l₂.take (a.length - b.length) ++ l₂.drop (a.length - b.length) := by
        rw [hdd]
    _ = l₂ := List.take_append_drop _ _

theorem dropAfterL_nil_pat : ∀ s : List Char, dropAfterL [] s = some s
  | [] => rfl
  | _ :: _ => by simp [dropAfterL, List.isPrefixOf]

theorem dropAfterL_sound {k : List Char} : ∀ {s r : List Char},
    dropAfterL k s = some r → ∃ u, s = (u ++ k) ++ r := by
  intro s
  induction s with
  | nil =>
    intro r h
    simp only [dropAfterL] at h
    split at h
    · rename_i hk
      rcases h with ⟨⟩
      have : k = [] := by simpa [List.isEmpty_iff] using hk
      exact ⟨[], by simp [this]⟩
    · cases h
  | cons c cs ih =>
    intro r h
    rw [dropAfterL] at h
    split at h
    · rename_i hp
      rcases h with ⟨⟩
      rcases (prefixOf_iff k (c :: cs)).1 hp with ⟨t, ht⟩
      have hdrop : (c :: cs).drop k.length = t := by rw [← ht, List.drop_left]
      exact ⟨[], by rw [hdrop, List.nil_append, ht]⟩
    · rcases ih h with ⟨u, hu⟩
      exact ⟨c :: u, by simp [hu]⟩

theorem dropAfterL_found (k : List Char) : ∀ (u v : List Char),
    ∃ r, dropAfterL k ((u ++ k) ++ v) = some r ∧ v <:+ r := by
  intro u
  induction u with
  | nil =>
    intro v
    cases hk : k with
    | nil =>
      refine ⟨v, ?_, List.suffix_refl v⟩
      simp [dropAfterL_nil_pat]
    | cons a k' =>
      refine ⟨v, ?_, List.suffix_refl v⟩
      have hp : k.isPrefixOf (k ++ v) = true := (prefixOf_iff _ _).2 ⟨v, rfl⟩
      have hd : (k ++ v).drop k.length = v := List.drop_left _ _
      rw [hk] at hp hd
      simp only [List.nil_append, List.cons_append] at hp hd ⊢
      rw [dropAfterL, if_pos hp, hd]
  | cons a u' ih =>
    intro v
    rcases ih v with ⟨r, hr, hsuf⟩
    by_cases hp : k.isPrefixOf (a :: ((u' ++ k) ++ v)) = true
    · refine ⟨(a :: ((u' ++ k) ++ v)).drop k.length, ?_, ?_⟩
      · simp only [List.cons_append, List.append_assoc] at hp ⊢
        rw [dropAfterL, if_pos hp]
      · rcases (prefixOf_iff _ _).1 hp with ⟨t, ht⟩
        have hrs : (a :: ((u' ++ k) ++ v)).drop k.length <:+
            a :: ((u' ++ k) ++ v) :=
          ⟨(a :: ((u' ++ k) ++ v)).take k.length, List.take_append_drop _ _⟩
        have hvs : v <:+ a :: ((u' ++ k) ++ v) := ⟨a :: (u' ++ k), by simp⟩
        apply suffix_of_suffix_len_le hvs hrs
        have hklen : k.length + t.length = (a :: ((u' ++ k) ++ v)).length := by
          rw [← ht, List.length_append]
        simp only [List.length_drop]
        simp only [List.length_cons, List.length_append] at hklen ⊢
        omega
    · refine ⟨r, ?_, hsuf⟩
      simp only [List.cons_append]
      rw [dropAfterL, if_neg hp]
      simpa using hr

theorem kwSearch_suffix_mono : ∀ (ks : List (List Char)) {v s : List Char},
    v <:+ s → kwSearch ks v = true → kwSearch ks s = true := by
  intro ks
  induction ks with
  | nil => intro v s _ _; rfl
  | cons k ks ih =>
    intro v s hvs hv
    rw [kwSearch] at hv ⊢
    cases hdv : dropAfterL k v with
    | none => rw [hdv] at hv; cases hv
    | some rv =>
      rw [hdv] at hv
      rcases dropAfterL_sound hdv with ⟨u, hu⟩
      rcases hvs with ⟨w, hw⟩
      have hs : s = ((w ++ u) ++ k) ++ rv := by
        rw [← hw, hu]; simp [List.append_assoc]
      rcases dropAfterL_found k (w ++ u) rv with ⟨r, hdr, hsuf⟩
      rw [hs, hdr]
      exact ih hsuf hv

theorem kwSearch_sound : ∀ (ks : List (List Char)) {s : List Char},
    kwSearch ks s = true → InOrder ks s := by
  intro ks
  induction ks with
  | nil => intro s _; trivial
  | cons k ks ih =>
    intro s h
    rw [kwSearch] at h
    cases hd : dropAfterL k s with
    | none => rw [hd] at h; cases h
    | some r =>
      rw [hd] at h
      rcases dropAfterL_sound hd with ⟨u, hu⟩
      exact ⟨u, r, hu, ih h⟩

theorem kwSearch_complete : ∀ (ks : List (List Char)) {s : List Char},
    InOrder ks s → kwSearch ks s = true := by
  intro ks
  induction ks with
  | nil => intro s _; rfl
  | cons k ks ih =>
    intro s h
    rcases h with ⟨u, v, hs, hv⟩
    rcases dropAfterL_found k u v with ⟨r, hd, hsuf⟩
    rw [kwSearch, hs, hd]
    exact kwSearch_suffix_mono ks hsuf (ih hv)

theorem InOrder_append_right : ∀ (ks : List (List Char)) {v t : List Char},
    InOrder ks v → InOrder ks (v ++ t) := by
  intro ks
  induction ks with
  | nil => intro v t _; trivial
  | cons k ks ih =>
    intro v t h
    rcases h with ⟨u, w, hv, hw⟩
    exact ⟨u, w ++ t, by rw [hv]; simp [List.append_assoc], ih hw⟩

theorem kwSearch_append_right {ks : List (List Char)} {v w : List Char}
    (h : kwSearch ks v = true) : kwSearch ks (v ++ w) = true :=
  kwSearch_complete ks (InOrder_append_right ks (kwSearch_sound ks h))

theorem lineSearch_sound {box : List Char} {kws : List (List Char)} :
    ∀ {s : List Char}, lineSearch box kws s = true →
      ∃ g rest, s = (g ++ box) ++ rest ∧ InOrder kws rest := by
  intro s
  induction s with
  | nil => intro h; cases h
  | cons c cs ih =>
    intro h
    rw [lineSearch] at h
    rcases Bool.or_eq_true_iff.mp h with hh | ht
    · rcases Bool.and_eq_true_iff.mp hh with ⟨hp, hk⟩
      rcases (prefixOf_iff box (c :: cs)).1 hp with ⟨t, hbt⟩
      have hdrop : (c :: cs).drop box.length = t := by rw [← hbt, List.drop_left]
      rw [hdrop] at hk
      exact ⟨[], t, by rw [List.nil_append, hbt], kwSearch_sound kws hk⟩
    · rcases ih ht with ⟨g, rest, hs, hio⟩
      exact ⟨c :: g, rest, by simp [hs], hio⟩

theorem lineSearch_complete {box : List Char} (hbox : box ≠ [])
    {kws : List (List Char)} :
    ∀ (g rest : List Char) {s : List Char}, s = (g ++ box) ++ rest →
      InOrder kws rest → lineSearch box kws s = true := by
  intro g
  induction g with
  | nil =>
    intro rest s hs hio
    subst hs
    obtain ⟨b, bs, hb⟩ : ∃ b bs, box = b :: bs := by
      cases hbb : box with
      | nil => exact absurd hbb hbox
      | cons b bs => exact ⟨b, bs, rfl⟩
    have hp : box.isPrefixOf (box ++ rest) = true := (prefixOf_iff _ _).2 ⟨rest, rfl⟩
    have hd : (box ++ rest).drop box.length = rest := List.drop_left _ _
    rw [hb] at hp hd
    simp only [List.nil_append, hb, List.cons_append] at hp hd ⊢
    rw [lineSearch]
    rw [hp, hd]
    simp [kwSearch_complete kws hio]
  | cons a g' ih =>
    intro rest s hs hio
    subst hs
    simp only [List.cons_append]
    rw [lineSearch]
    have hrec : lineSearch box kws ((g' ++ box) ++ rest) = true :=
      ih rest rfl hio
    simp only [List.cons_append] at hrec ⊢
    rw [hrec]
    simp

theorem splitNl_no_nl : ∀ {s : List Char}, '\n' ∉ s → splitNl s = [s] := by
  intro s
  induction s with
  | nil => intro _; rfl
  | cons c cs ih =>
    intro h
    have hc : ¬ c = '\n' := fun hc => h (hc ▸ List.mem_cons_self c cs)
    have hcs : '\n' ∉ cs := fun hm => h (List.mem_cons_of_mem c hm)
    rw [splitNl, if_neg hc, ih hcs]

theorem lineRemoveScan_front : ∀ {l r : List Char},
    lineRemoveScan l = some r → ∃ t, r ++ t = l := by
  intro l
  induction l with
  | nil => intro r h; cases h
  | cons c cs ih =>
    intro r h
    rw [lineRemoveScan] at h
    split at h
    · cases h
      exact ⟨c :: cs, rfl⟩
    · cases hcs : lineRemoveScan cs with
      | some res =>
        rw [hcs] at h
        cases h
        rcases ih hcs with ⟨t, ht⟩
        exact ⟨t, by rw [List.cons_append, ht]⟩
      | none => rw [hcs] at h; cases h

theorem lineRemoveScan_no_checked : ∀ (l : List Char),
    (∀ r, lineRemoveScan l = some r → lineSearch boxX kwList (lcase r) = false)
    ∧ (lineRemoveScan l = none → lineSearch boxX kwList (lcase l) = false) := by
  intro l
  induction l with
  | nil => exact ⟨fun r h => (by cases h), fun _ => rfl⟩
  | cons c cs ih =>
    by_cases hm : removeMatchHead (c :: cs) = true
    · refine ⟨?_, ?_⟩
      · intro r h
        rw [lineRemoveScan, if_pos hm] at h
        cases h
        rfl
      · intro h
        rw [lineRemoveScan, if_pos hm] at h
        cases h
    · refine ⟨?_, ?_⟩
      · intro r h
        rw [lineRemoveScan, if_neg hm] at h
        cases hcs : lineRemoveScan cs with
        | none => rw [hcs] at h; cases h
        | some res =>
          rw [hcs] at h
          cases h
          have hlc : lcase (c :: res) = c.toLower :: lcase res := rfl
          rw [hlc, lineSearch]
          apply Bool.or_eq_false_iff.mpr
          refine ⟨?_, ih.1 res hcs⟩
          by_contra hhead
          rw [Bool.not_eq_false, Bool.and_eq_true_iff] at hhead
          rcases hhead with ⟨hp, hk⟩
          rw [← hlc] at hp hk
          rcases lineRemoveScan_front hcs with ⟨t, ht⟩
          have hct : (c :: res) ++ t = c :: cs := by rw [List.cons_append, ht]
          have hlcc : lcase (c :: cs) = lcase (c :: res) ++ lcase t := by
            simp only [← hct, lcase, List.map_append]
          have hpfull : boxX.isPrefixOf (lcase (c :: cs)) = true := by
            rw [hlcc]; exact prefixOf_append _ _ _ hp
          have hblen : boxX.length ≤ (lcase (c :: res)).length := by
            rcases (prefixOf_iff _ _).1 hp with ⟨w, hw⟩
            have := congrArg List.length hw
            simp only [List.length_append] at this
            omega
          have hdropfull : (lcase (c :: cs)).drop boxX.length
              = (lcase (c :: res)).drop boxX.length ++ lcase t := by
            rw [hlcc]
            exact List.drop_append_of_le_length hblen
          have hkfull : kwSearch kwList
              ((lcase (c :: cs)).drop boxX.length) = true := by
            rw [hdropfull]
            exact kwSearch_append_right hk
          have hfull : removeMatchHead (c :: cs) = true := by
            rw [removeMatchHead, hpfull]
            simp only [Bool.true_or, Bool.true_and]
            exact hkfull
          exact hm hfull
      · intro h
        rw [lineRemoveScan, if_neg hm] at h
        cases hcs : lineRemoveScan cs with
        | some res => rw [hcs] at h; cases h
        | none =>
          have hlc : lcase (c :: cs) = c.toLower :: lcase cs := rfl
          rw [hlc, lineSearch]
          apply Bool.or_eq_false_iff.mpr
          refine ⟨?_, ih.2 hcs⟩
          by_contra hhead
          rw [Bool.not_eq_false, Bool.and_eq_true_iff] at hhead
          rcases hhead with ⟨hp, hk⟩
          rw [← hlc] at hp hk
          have hfull : removeMatchHead (c :: cs) = true := by
            rw [removeMatchHead, hp]
            simp only [Bool.true_or, Bool.true_and]
            exact hk
          exact hm hfull

theorem lineOut_no_checked (l : List Char) :
    lineSearch boxX kwList (lcase (lineOut l)) = false := by
  cases h : lineRemoveScan l with
  | some r =>
    rw [lineOut, h]
    exact (lineRemoveScan_no_checked l).1 r h
  | none =>
    rw [lineOut, h]
    exact (lineRemoveScan_no_checked l).2 h

theorem lineOut_front (l : List Char) : ∃ t, lineOut l ++ t = l := by
  cases h : lineRemoveScan l with
  | some r =>
    rw [lineOut, h]
    exact lineRemoveScan_front h
  | none =>
    rw [lineOut, h]
    exact ⟨[], List.append_nil l⟩

theorem pyStrip_surround (s : List Char) : ∃ a b, (a ++ pyStrip s) ++ b = s := by
  have hsuf1 : s.dropWhile isPyWs <:+ s := List.dropWhile_suffix isPyWs
  have hsuf2 : (s.dropWhile isPyWs).reverse.dropWhile isPyWs
      <:+ (s.dropWhile isPyWs).reverse := List.dropWhile_suffix isPyWs
  rcases hsuf1 with ⟨a, ha⟩
  rcases hsuf2 with ⟨c, hc⟩
  refine ⟨a, c.reverse, ?_⟩
  have h2 : pyStrip s = ((s.dropWhile isPyWs).reverse.dropWhile isPyWs).reverse :=
    rfl
  have h3 : s.dropWhile isPyWs
      = ((s.dropWhile isPyWs).reverse.dropWhile isPyWs).reverse ++ c.reverse := by
    have h4 := congrArg List.reverse hc
    simpa [List.reverse_append] using h4.symm
  rw [h2, List.append_assoc, ← h3, ha]

theorem lineSearch_surround (box : List Char) (hbox : box ≠ [])
    {kws : List (List Char)} {m : List Char} (a b : List Char)
    (hm : lineSearch box kws (lcase m) = true) :
    lineSearch box kws (lcase ((a ++ m) ++ b)) = true := by
  rcases lineSearch_sound hm with ⟨g, rest, hs, hio⟩
  apply lineSearch_complete hbox (lcase a ++ g) (rest ++ lcase b)
  · simp only [lcase, List.map_append] at hs ⊢
    rw [hs]
    simp [List.append_assoc]
  · exact InOrder_append_right kws hio

/-!
The claims.
-/

/-- Claim C1: for every argument assignment, the deployment mode selector
chooses direct manifest deployment when `multi_user` is true regardless of
all other flags, chooses direct manifest deployment when `proxy` is true
and `multi_user` is false, and chooses operator (DSPO) deployment when
both are false; the two strategies are mutually exclusive (exactly one is
taken per run). -/
theorem claim_C1 (a : DeployArgs) :
    (a.multi_user = true → deploy_strategy a = DeployStrategy.directManifests)
    ∧ (a.multi_user = false → a.proxy = true →
        deploy_strategy a = DeployStrategy.directManifests)
    ∧ (a.multi_user = false → a.proxy = false →
        deploy_strategy a = DeployStrategy.viaOperator)
    ∧ ((deploy_strategy a = DeployStrategy.viaOperator
          ∧ ¬ deploy_strategy a = DeployStrategy.directManifests)
        ∨ (deploy_strategy a = DeployStrategy.directManifests
          ∧ ¬ deploy_strategy a = DeployStrategy.viaOperator)) := by
  rcases a with ⟨mu, px⟩
  cases mu <;> cases px <;> decide

/-- Witness for C1 at the three flag combinations. -/
theorem claim_C1_witness :
    deploy_strategy ⟨true, false⟩ = DeployStrategy.directManifests
    ∧ deploy_strategy ⟨false, true⟩ = DeployStrategy.directManifests
    ∧ deploy_strategy ⟨false, false⟩ = DeployStrategy.viaOperator :=
  ⟨(claim_C1 ⟨true, false⟩).1 rfl,
   (claim_C1 ⟨false, true⟩).2.1 rfl rfl,
   (claim_C1 ⟨false, false⟩).2.2.1 rfl rfl⟩

/-- Claim C2: every PR body containing a line that matches `- [x]`
followed, with arbitrary interstitial text on that line, by `integration`,
`tests`, `openshift`, `cluster`, `odh`, `nightly` in that order,
case-insensitively, is detected by `check_integration_test_checkbox`. -/
theorem claim_C2 {body : List Char} (h : ContainsCheckedLine body) :
    check_integration_test_checkbox body = true := by
  rcases h with ⟨l, hl, g, rest, heq, hio⟩
  have hline : lineSearch boxX kwList (lcase l) = true :=
    lineSearch_complete (by decide) g rest heq hio
  have hbody : ¬ body.isEmpty = true := by
    intro hb
    have hbn : body = [] := by
      cases body with
      | nil => rfl
      | cons a as => cases hb
    subst hbn
    have hl0 : l = [] := by
      have hsp : splitNl ([] : List Char) = [[]] := rfl
      rw [hsp] at hl
      simpa using hl
    subst hl0
    simp only [lcase, List.map_nil] at heq
    have hlen := congrArg List.length heq
    have hbx : boxX.length = 5 := by decide
    simp only [List.length_nil, List.length_append, hbx] at hlen
    omega
  rw [check_integration_test_checkbox, if_neg hbody]
  exact List.any_eq_true.mpr ⟨l, hl, hline⟩

/-- Witness for C2 at a concrete PR body. -/
theorem claim_C2_witness :
    check_integration_test_checkbox
      "- [x] Ran integration tests in an OpenShift cluster with latest ODH nightly".toList
      = true :=
  claim_C2
    ⟨"- [x] Ran integration tests in an OpenShift cluster with latest ODH nightly".toList,
     by decide,
     [],
     " ran integration tests in an openshift cluster with latest odh nightly".toList,
     by decide,
     kwSearch_sound kwList (by decide)⟩

/-- Counterexample to claim C5 as stated: stripping is NOT complete for
every PR body.  The removal of a matched line consumes its LF, so the
pre-match residue of that line is joined with the following line; here the
residue `- [` and the next line `x] integration ...` reassemble a checked
checkbox line, which `check_integration_test_checkbox` then detects. -/
theorem claim_C5_cex :
    check_integration_test_checkbox
      (remove_integration_test_checkbox
        "- [- [x] integration tests openshift cluster odh nightly\nx] integration tests openshift cluster odh nightly".toList)
      = true := by decide

/-- Claim C5 (amended): for every PR body without a newline character,
`check_integration_test_checkbox` applied to the result of
`remove_integration_test_checkbox` returns `false` — after stripping a
single-line body, no checked integration-test checklist text remains. -/
theorem claim_C5 (body : List Char) (h : '\n' ∉ body) :
    check_integration_test_checkbox (remove_integration_test_checkbox body)
      = false := by
  by_cases hb : body.isEmpty = true
  · have hbn : body = [] := by
      cases body with
      | nil => rfl
      | cons a as => cases hb
    subst hbn
    rfl
  · rw [remove_integration_test_checkbox, if_neg hb]
    rw [splitNl_no_nl h]
    have hpy : pyRemoveLines [body] = lineOut body := rfl
    rw [hpy]
    rcases pyStrip_surround (lineOut body) with ⟨a, b, hab⟩
    by_cases hb2 : (pyStrip (lineOut body)).isEmpty = true
    · rw [check_integration_test_checkbox, if_pos hb2]
    · rw [check_integration_test_checkbox, if_neg hb2]
      have hout_nl : '\n' ∉ lineOut body := by
        rcases lineOut_front body with ⟨t, ht⟩
        intro hmem
        exact h (ht ▸ List.mem_append_left t hmem)
      have hstrip_nl : '\n' ∉ pyStrip (lineOut body) := by
        intro hmem
        apply hout_nl
        rw [← hab]
        exact List.mem_append_left b (List.mem_append_right a hmem)
      rw [splitNl_no_nl hstrip_nl]
      simp only [List.any_cons, List.any_nil, Bool.or_false]
      by_contra hT
      rw [Bool.not_eq_false] at hT
      have hsur := lineSearch_surround boxX (by decide) a b hT
      rw [hab, lineOut_no_checked body] at hsur
      cases hsur

/-- Witness for amended C5 at a concrete newline-free body. -/
theorem claim_C5_witness :
    check_integration_test_checkbox
      (remove_integration_test_checkbox
        "Intro - [x] Ran integration tests in an OpenShift cluster with latest ODH nightly".toList)
      = false :=
  claim_C5 _ (by decide)

/-- Claim C3: on a non-synchronize event, the script exits 0 exactly when
the PR body contains a checked integration-test checklist line, leaving
the state unchanged; when it is absent the script posts the one-time
instructional comment (idempotently, via `post_instruction_comment`) and
exits 1.  In particular it never exits 0 when the checked line is absent. -/
theorem claim_C3 (u a : String) (st : PRState)
    (h : (a == "synchronize") = false) :
    ((main_check u a st).1 = ExitStatus.exitZero
      ↔ check_integration_test_checkbox st.body = true)
    ∧ (check_integration_test_checkbox st.body = true →
        main_check u a st = (ExitStatus.exitZero, st))
    ∧ (check_integration_test_checkbox st.body = false →
        main_check u a st =
          (ExitStatus.exitOne,
            ⟨st.body, post_instruction_comment u st.comments⟩)) := by
  have hcond : (a == "synchronize"
      && (check_integration_test_checkbox st.body
          || has_unchecked_integration_test_checkbox st.body)) = false := by
    rw [h, Bool.false_and]
  rw [main_check, hcond]
  by_cases hc : check_integration_test_checkbox st.body = true
  · simp [hc]
  · rw [Bool.not_eq_true] at hc
    simp [hc]

/-- Witness for C3 at a concrete non-synchronize event with the checkbox
present. -/
theorem claim_C3_witness :
    main_check "Bot" "opened"
      ⟨"- [x] Ran integration tests in an OpenShift cluster with latest ODH nightly please".toList, []⟩
      = (ExitStatus.exitZero,
         ⟨"- [x] Ran integration tests in an OpenShift cluster with latest ODH nightly please".toList, []⟩) :=
  (claim_C3 "Bot" "opened" _ (by decide)).2.1 (by decide)

/-- Claim C4: on a synchronize event with an integration-test checklist
line present (checked or unchecked), the script edits the PR body to the
result of `remove_integration_test_checkbox` — the global `re.sub` that
deletes every matched checklist line — and posts the explanatory removal
comment. -/
theorem claim_C4 (u : String) (st : PRState)
    (h : (check_integration_test_checkbox st.body
          || has_unchecked_integration_test_checkbox st.body) = true) :
    (main_check u "synchronize" st).2.body
        = remove_integration_test_checkbox st.body
    ∧ (main_check u "synchronize" st).2.comments
        = st.comments ++ [⟨u, removal_comment_text.toList⟩] := by
  have hcond : (("synchronize" : String) == "synchronize"
      && (check_integration_test_checkbox st.body
          || has_unchecked_integration_test_checkbox st.body)) = true := by
    rw [h]; rfl
  rw [main_check, hcond]
  by_cases hc : check_integration_test_checkbox
      (remove_integration_test_checkbox st.body) = true
  · simp [hc]
  · rw [Bool.not_eq_true] at hc
    simp [hc]

/-- Witness for C4 at a concrete synchronize event with an unchecked
checklist line. -/
theorem claim_C4_witness :
    (main_check "Bot" "synchronize"
      ⟨"Fixes a bug.\n- [ ] Ran integration tests in an OpenShift cluster with latest ODH nightly".toList,
       []⟩).2.body
      = remove_integration_test_checkbox
          "Fixes a bug.\n- [ ] Ran integration tests in an OpenShift cluster with latest ODH nightly".toList
    ∧ (main_check "Bot" "synchronize"
      ⟨"Fixes a bug.\n- [ ] Ran integration tests in an OpenShift cluster with latest ODH nightly".toList,
       []⟩).2.comments
      = [] ++ [⟨"Bot", removal_comment_text.toList⟩] :=
  claim_C4 "Bot" _ (by decide)

/-- Claim C6: posting the instructional comment is idempotent.  When the
existing comments already contain exactly one bot comment with the
instructional text, invoking `post_instruction_comment` twice creates no
new comment, and exactly one instructional comment exists afterwards. -/
theorem claim_C6 (u : String) (comments : List IssueComment)
    (h : comments.countP is_instruction_comment = 1) :
    post_instruction_comment u (post_instruction_comment u comments)
        = comments
    ∧ (post_instruction_comment u
        (post_instruction_comment u comments)).countP is_instruction_comment
        = 1 := by
  have hany : comments.any is_instruction_comment = true := by
    rw [List.any_eq_true]
    have hpos : 0 < comments.countP is_instruction_comment := by omega
    rcases List.countP_pos_iff.mp hpos with ⟨c, hc, hp⟩
    exact ⟨c, hc, hp⟩
  have h1 : post_instruction_comment u comments = comments := by
    rw [post_instruction_comment, if_pos hany]
  rw [h1, h1]
  exact ⟨rfl, h⟩

/-- Witness for C6 with one existing bot instruction comment. -/
theorem claim_C6_witness :
    post_instruction_comment "github-actions[bot]"
      (post_instruction_comment "github-actions[bot]"
        [⟨"Bot", instruction_comment_text.toList⟩])
      = [⟨"Bot", instruction_comment_text.toList⟩]
    ∧ (post_instruction_comment "github-actions[bot]"
        (post_instruction_comment "github-actions[bot]"
          [⟨"Bot", instruction_comment_text.toList⟩])).countP
        is_instruction_comment = 1 :=
  claim_C6 "github-actions[bot]" _ (by decide)

/-- Claim C7: every namespace-creation command of the deployment script
(deployment namespace, operator namespace, pypi-server namespace,
cert-manager namespace) is run with `check=False`, so a non-zero exit
never raises and execution always continues with the next step. -/
theorem claim_C7 (ns1 ns2 : String) (oracle : Nat → Int) (i : Nat)
    (rest : List KubeCmd) :
    (∀ rc : Int, runCmd rc false = Except.ok rc)
    ∧ runSeq oracle i (create_deployment_namespace_cmd ns1 :: rest)
        = runSeq oracle (i + 1) rest
    ∧ runSeq oracle i (create_operator_namespace_cmd ns2 :: rest)
        = runSeq oracle (i + 1) rest
    ∧ runSeq oracle i (create_pypi_namespace_cmd :: rest)
        = runSeq oracle (i + 1) rest
    ∧ runSeq oracle i (create_cert_manager_namespace_cmd :: rest)
        = runSeq oracle (i + 1) rest := by
  refine ⟨fun rc => rfl, ?_, ?_, ?_, ?_⟩ <;> rfl

/-- Counterexample to claim C8 as stated: the SeaweedFS init-job
completion wait does NOT fail loudly on timeout — it collects logs and
then continues (`deploy.py` lines 497-506 print
"Continuing without waiting for init job completion"). -/
theorem claim_C8_cex :
    (on_wait_timeout ReadinessWait.seaweedfsInit).2 = false := rfl

/-- Claim C8 (amended): every readiness wait that inspects its return
code, except the SeaweedFS init-job wait, reacts to a timeout by running a
diagnostic collection routine that includes listing pods, events and logs,
and then raises an error aborting the deployment; the SeaweedFS init-job
wait only collects logs and continues. -/
theorem claim_C8 (w : ReadinessWait) (h : w ≠ ReadinessWait.seaweedfsInit) :
    (on_wait_timeout w).2 = true
    ∧ "kubectl get pods" ∈ (on_wait_timeout w).1
    ∧ "kubectl get events" ∈ (on_wait_timeout w).1
    ∧ "kubectl logs" ∈ (on_wait_timeout w).1 := by
  cases w with
  | operatorReady => exact ⟨rfl, by decide, by decide, by decide⟩
  | dspaCreated => exact ⟨rfl, by decide, by decide, by decide⟩
  | dspaAvailable => exact ⟨rfl, by decide, by decide, by decide⟩
  | seaweedfsInit => exact absurd rfl h

/-- Witness for amended C8 at the operator readiness wait. -/
theorem claim_C8_witness :
    (on_wait_timeout ReadinessWait.operatorReady).2 = true
    ∧ "kubectl get pods" ∈ (on_wait_timeout ReadinessWait.operatorReady).1
    ∧ "kubectl get events" ∈ (on_wait_timeout ReadinessWait.operatorReady).1
    ∧ "kubectl logs" ∈ (on_wait_timeout ReadinessWait.operatorReady).1 :=
  claim_C8 ReadinessWait.operatorReady (by decide)

/-- Claim C9: `str_to_bool` returns `true` on a string if and only if the
lowercased string equals `true` (so `True` and `TRUE` map to `true`, while
`1`, `yes` and the empty string map to `false`); a boolean input is
returned unchanged. -/
theorem claim_C9 :
    (∀ s : String,
      str_to_bool (PyStrOrBool.ofStr s) = true ↔ lcase s.toList = "true".toList)
    ∧ str_to_bool (PyStrOrBool.ofStr "True") = true
    ∧ str_to_bool (PyStrOrBool.ofStr "TRUE") = true
    ∧ str_to_bool (PyStrOrBool.ofStr "1") = false
    ∧ str_to_bool (PyStrOrBool.ofStr "yes") = false
    ∧ str_to_bool (PyStrOrBool.ofStr "") = false
    ∧ ∀ b : Bool, str_to_bool (PyStrOrBool.ofBool b) = b := by
  refine ⟨?_, by decide, by decide, by decide, by decide, by decide, ?_⟩
  · intro s
    rw [str_to_bool]
    exact beq_iff_eq
  · intro b
    rfl

/-- Claim C10 (frame property): on a non-synchronize event with the
checked checklist line present, the script exits 0 and returns the
pull-request state unchanged — no body edit, no comment posted. -/
theorem claim_C10 (u a : String) (st : PRState)
    (h1 : (a == "synchronize") = false)
    (h2 : check_integration_test_checkbox st.body = true) :
    main_check u a st = (ExitStatus.exitZero, st) := by
  have hcond : (a == "synchronize"
      && (check_integration_test_checkbox st.body
          || has_unchecked_integration_test_checkbox st.body)) = false := by
    rw [h1, Bool.false_and]
  rw [main_check, hcond]
  simp [h2]

/-- Witness for C10 at a concrete labeled event with a checked line and an
existing unrelated comment. -/
theorem claim_C10_witness :
    main_check "github-actions[bot]" "labeled"
      ⟨"Intro\n- [X] my INTEGRATION tests on an OpenShift CLUSTER with ODH nightly build".toList,
       [⟨"User", "hello".toList⟩]⟩
      = (ExitStatus.exitZero,
         ⟨"Intro\n- [X] my INTEGRATION tests on an OpenShift CLUSTER with ODH nightly build".toList,
          [⟨"User", "hello".toList⟩]⟩) :=
  claim_C10 "github-actions[bot]" "labeled" _ (by decide) (by decide)

